import Mathlib

/-!
Verification of the uscbp-trade-tracker scraper core.

Shallow embedding conventions:
* Python `str` values are embedded as `List Char` (abbreviated `Str`); Python
  slicing `s[:n]` / `s[n:]` becomes `List.take` / `List.drop`, and slicing with a
  possibly negative stop index is `pySliceTo`.
* Python integers that can go negative (the truncation budget) are `Int`;
  all other counters are `Nat`.  Python `len(s) // 4` is Nat division.
* The on-disk caches are association lists from file name to file content;
  a write conses the new pair in front (the lookup takes the first match, which
  models overwriting), `unlink` removes every pair with that file name.
* SHA-256 digests (`hashlib.sha256(...).hexdigest()[:k]`) are external library
  calls; they are modelled as injective functions of their input (the digest is
  assumed collision-free, exactly as the code and spec treat it).
* The HTTP layer is modelled by a script: a list of events (a response with a
  status code, a final URL and a body, or a transport-level exception), consumed
  one per attempt by the retry loop.
* BeautifulSoup HTML processing (`_extract_text_from_bulletin`,
  `_resolve_js_redirect`) and the JSON codec are external collaborators; they
  enter the model as function parameters and as an abstract stored blob that is
  either well-formed JSON or garbage.
-/

set_option maxRecDepth 4000

/-- Python `str` embedded as a list of characters. -/
abbrev Str := List Char

/-! ## Configuration constants (src/scraper/config.py) -/

/-- config.py: MAX_RETRIES = 3 -/
def MAX_RETRIES : Nat := 3

/-- config.py: RETRY_BACKOFF_BASE = 10 -/
def RETRY_BACKOFF_BASE : Nat := 10

/-- config.py: MAX_TRUNCATED_TOKENS = 3000 -/
def MAX_TRUNCATED_TOKENS : Nat := 3000

/-- config.py: MAX_FULL_TEXT_TOKENS = 10000 -/
def MAX_FULL_TEXT_TOKENS : Nat := 10000

/-- config.py: KEYWORD_WINDOW_TOKENS = 300 -/
def KEYWORD_WINDOW_TOKENS : Nat := 300

/-- config.py: INTRO_TOKENS = 1500 -/
def INTRO_TOKENS : Nat := 1500

/-- config.py: PROMPT_VERSION = "v1" -/
def PROMPT_VERSION : Str := "v1".data

/-- config.py: TRADE_KEYWORDS (the fixed keyword list, in source order). -/
def TRADE_KEYWORDS : List Str :=
  ["tariff", "tariffs", "duty", "duties", "customs duty",
   "quota", "quotas", "tariff-rate quota", "TRQ",
   "embargo", "embargoes",
   "sanction", "sanctions", "OFAC",
   "Section 301", "Section 201", "Section 232",
   "HTSUS", "HTS", "Harmonized Tariff",
   "antidumping", "anti-dumping", "countervailing",
   "exclusion", "exclusions",
   "import restriction", "export restriction",
   "trade remedy", "trade remedies",
   "additional duties", "retaliatory",
   "suspension of liquidation",
   "Federal Register", "trade action",
   "country of origin", "marking requirements",
   "IEEPA", "executive order", "proclamation",
   "reciprocal", "withhold release", "WRO",
   "forced labor", "UFLPA",
   "steel", "aluminum", "copper", "semiconductor",
   "automobile", "auto parts"].map String.data

/-! ## String primitives shared by several modules -/

/-- Python `str.lower()` (the texts and keywords in play are ASCII, where
`Char.toLower` agrees with Python). -/
def pyLower (s : Str) : Str := s.map Char.toLower

/-- Python `hay.find(nee, i) ` scanning from offset `i`: returns the least
`j ≥ i` such that `nee` occurs at offset `j`, as an option instead of `-1`.
`hay` here is already the suffix of the text starting at offset `i`. -/
def findFrom (nee : Str) : Str → Nat → Option Nat
  | hay, i =>
    if nee.isPrefixOf hay then some i
    else
      match hay with
      | [] => none
      | _ :: t => findFrom nee t (i + 1)

/-- Python `nee in hay` (contiguous substring test), via the scanner. -/
def occursInB (nee hay : Str) : Bool := (findFrom nee hay 0).isSome

/-- Declarative occurrence: `nee` occurs somewhere in `hay` as a contiguous
substring. -/
def OccursIn (nee hay : Str) : Prop := ∃ i, nee.isPrefixOf (hay.drop i) = true

/-- Python `s[:b]` for an `int` stop `b` that may be negative. -/
def pySliceTo (l : Str) (b : Int) : Str :=
  if 0 ≤ b then l.take b.toNat else l.take (l.length - (-b).toNat)

/-! ## Truncation (src/scraper/truncate.py) -/

/-- truncate.py: CHARS_PER_TOKEN = 4 -/
def CHARS_PER_TOKEN : Nat := 4

/-- truncate.py `_token_estimate`: `len(text) // CHARS_PER_TOKEN`. -/
def token_estimate (text : Str) : Nat := text.length / CHARS_PER_TOKEN

/-- The inner `while True` loop of `truncate_text` for one keyword: repeatedly
`find` the lowered keyword in the lowered remainder, emit the clipped window
`(max(0, idx - window_chars), min(len(rest), idx + len(keyword) + window_chars))`
and resume the scan at `idx + len(keyword)`.  `Nat` subtraction supplies the
`max 0` clip.  The `fuel` parameter is a termination device only: it is called
with more fuel than the scan can ever use (every keyword is non-empty, so the
scan offset strictly increases). -/
def collectKw (restLower : Str) (kwLower : Str) (kwLen winChars : Nat) :
    Nat → Nat → List (Nat × Nat)
  | 0, _ => []
  | fuel + 1, start =>
    match findFrom kwLower (restLower.drop start) start with
    | none => []
    | some idx =>
      (idx - winChars, min restLower.length (idx + kwLen + winChars)) ::
        collectKw restLower kwLower kwLen winChars fuel (idx + kwLen)

/-- Step 2 of `truncate_text` (enabled path) applied to the remainder after
the intro: lower the remainder once, then collect every keyword window,
keywords in source order. -/
def windows_of_rest (rest : Str) : List (Nat × Nat) :=
  let restLower := pyLower rest
  TRADE_KEYWORDS.flatMap fun kw =>
    collectKw restLower (pyLower kw) kw.length
      (KEYWORD_WINDOW_TOKENS * CHARS_PER_TOKEN) (restLower.length + 1) 0

/-- Steps 1-2 of `truncate_text` (enabled path): split off the intro and
collect the keyword windows of the remainder. -/
def trunc_windows (text : Str) : List (Nat × Nat) :=
  windows_of_rest (text.drop (INTRO_TOKENS * CHARS_PER_TOKEN))

/-- The comparison used by Python `list.sort()` on `(start, end)` tuples:
lexicographic order on pairs. -/
def lexLe (a b : Nat × Nat) : Prop := a.1 < b.1 ∨ (a.1 = b.1 ∧ a.2 ≤ b.2)

instance : DecidableRel lexLe := fun a b => by
  unfold lexLe; exact inferInstance

instance : IsTotal (Nat × Nat) lexLe :=
  ⟨by
    intro a b
    unfold lexLe
    omega⟩

instance : IsTrans (Nat × Nat) lexLe :=
  ⟨by
    intro a b c hab hbc
    unfold lexLe at hab hbc ⊢
    omega⟩

/-- Step 3 of `truncate_text`, the merging loop: `merged[-1]` is the `cur`
accumulator; a window whose start falls at or before `cur`'s end extends `cur`
(end becomes the max), otherwise `cur` is emitted and the window starts a new
accumulator. -/
def mergeAux (cur : Nat × Nat) : List (Nat × Nat) → List (Nat × Nat)
  | [] => [cur]
  | (ws, we) :: tl =>
    if ws ≤ cur.2 then mergeAux (cur.1, max cur.2 we) tl
    else cur :: mergeAux (ws, we) tl

/-- `merged = [windows[0]]` then the loop; empty input gives an empty output
(the source guards this case with `if not windows`). -/
def merge_windows : List (Nat × Nat) → List (Nat × Nat)
  | [] => []
  | w :: ws => mergeAux w ws

/-- The sorted-and-merged window list of `truncate_text` for a given text.
Python `windows.sort()` sorts lexicographically; since that order is total and
antisymmetric the sorted permutation is unique, so `List.insertionSort`
computes exactly it. -/
def trunc_merged (text : Str) : List (Nat × Nat) :=
  merge_windows (List.insertionSort lexLe (trunc_windows text))

/-- Step 4 of `truncate_text`: emit `"\n\n[...]\n\n" + chunk` for each merged
window, truncating the chunk and stopping (the `break`) once a chunk exceeds
the remaining budget, otherwise charging `len(chunk) + 10` against the budget.
The budget is a Python `int` and may go negative. -/
def build_parts (rest : Str) : List (Nat × Nat) → Int → Str
  | [], _ => []
  | (ws, we) :: tl, budget =>
    let chunk := (rest.drop ws).take (we - ws)
    if budget < (chunk.length : Int) then
      "\n\n[...]\n\n".data ++ pySliceTo chunk budget
    else
      "\n\n[...]\n\n".data ++ chunk ++ build_parts rest tl (budget - chunk.length - 10)

/-- truncate.py `truncate_text`.  The source computes `windows`, returns the
intro-only note when `windows` is empty, and otherwise sorts and merges; since
`merge_windows l = []` exactly when `l = []`, matching on the merged list is
the same case split. -/
def truncate_text (text : Str) (enabled : Bool) : Str :=
  if text = [] then []
  else if enabled = false then
    if MAX_FULL_TEXT_TOKENS * CHARS_PER_TOKEN < text.length then
      text.take (MAX_FULL_TEXT_TOKENS * CHARS_PER_TOKEN)
    else text
  else if token_estimate text ≤ MAX_TRUNCATED_TOKENS then text
  else
    let intro := text.take (INTRO_TOKENS * CHARS_PER_TOKEN)
    match trunc_merged text with
    | [] =>
      "[NOTE: Truncated to first ".data ++ (toString INTRO_TOKENS).data ++
        " tokens. No keyword matches in remainder.]\n\n".data ++ intro
    | merged =>
      "[NOTE: This text has been extracted from key sections of a longer document. Some context may be missing.]\n\n".data
        ++ intro ++
        build_parts (text.drop (INTRO_TOKENS * CHARS_PER_TOKEN)) merged
          ((MAX_TRUNCATED_TOKENS * CHARS_PER_TOKEN : Int) - intro.length - 200)

/-! ## Invariants of the window merge (claim C2) -/

/-- Every window the merge loop emits starts at or after the start of the
current accumulator, provided the input starts are non-decreasing. -/
theorem mergeAux_fst_le (l : List (Nat × Nat)) :
    ∀ c1 c2 : Nat, List.Chain' (fun a b => a.1 ≤ b.1) ((c1, c2) :: l) →
      ∀ m ∈ mergeAux (c1, c2) l, c1 ≤ m.1 := by
  induction l with
  | nil =>
    intro c1 c2 _ m hm
    simp only [mergeAux, List.mem_singleton] at hm
    simp [hm]
  | cons w tl ih =>
    intro c1 c2 hchain m hm
    obtain ⟨ws, we⟩ := w
    have h1 : c1 ≤ ws := (List.chain'_cons.mp hchain).1
    have h2 : List.Chain' (fun a b => a.1 ≤ b.1) ((ws, we) :: tl) :=
      (List.chain'_cons.mp hchain).2
    simp only [mergeAux] at hm
    by_cases hle : ws ≤ c2
    · simp only [if_pos hle] at hm
      have hchain2 : List.Chain' (fun a b => a.1 ≤ b.1) ((c1, max c2 we) :: tl) := by
        cases tl with
        | nil => simp
        | cons u tu =>
          refine List.chain'_cons.mpr ⟨?_, (List.chain'_cons.mp h2).2⟩
          have := (List.chain'_cons.mp h2).1
          simp only at this ⊢
          omega
      exact ih c1 (max c2 we) hchain2 m hm
    · simp only [if_neg hle] at hm
      rcases List.mem_cons.mp hm with h | h
      · simp [h]
      · have := ih ws we h2 m h
        simp only at this
        omega

/-- After merging a list whose starts are non-decreasing, consecutive output
windows are strictly separated: each start is strictly greater than the
previous end. -/
theorem mergeAux_pairwise (l : List (Nat × Nat)) :
    ∀ c1 c2 : Nat, List.Chain' (fun a b => a.1 ≤ b.1) ((c1, c2) :: l) →
      List.Pairwise (fun a b => a.2 < b.1) (mergeAux (c1, c2) l) := by
  induction l with
  | nil => intro c1 c2 _; simp [mergeAux]
  | cons w tl ih =>
    intro c1 c2 hchain
    obtain ⟨ws, we⟩ := w
    have h1 : c1 ≤ ws := (List.chain'_cons.mp hchain).1
    have h2 : List.Chain' (fun a b => a.1 ≤ b.1) ((ws, we) :: tl) :=
      (List.chain'_cons.mp hchain).2
    simp only [mergeAux]
    by_cases hle : ws ≤ c2
    · simp only [if_pos hle]
      have hchain2 : List.Chain' (fun a b => a.1 ≤ b.1) ((c1, max c2 we) :: tl) := by
        cases tl with
        | nil => simp
        | cons u tu =>
          refine List.chain'_cons.mpr ⟨?_, (List.chain'_cons.mp h2).2⟩
          have := (List.chain'_cons.mp h2).1
          simp only at this ⊢
          omega
      exact ih c1 (max c2 we) hchain2
    · simp only [if_neg hle]
      refine List.pairwise_cons.mpr ⟨?_, ih ws we h2⟩
      intro m hm
      have := mergeAux_fst_le tl ws we h2 m hm
      simp only
      omega

/-- Every input window is contained in some merged window. -/
theorem mergeAux_cover (l : List (Nat × Nat)) :
    ∀ c1 c2 : Nat, List.Chain' (fun a b => a.1 ≤ b.1) ((c1, c2) :: l) →
      ∀ w ∈ (c1, c2) :: l, ∃ m ∈ mergeAux (c1, c2) l, m.1 ≤ w.1 ∧ w.2 ≤ m.2 := by
  induction l with
  | nil =>
    intro c1 c2 _ w hw
    simp only [List.mem_singleton] at hw
    exact ⟨(c1, c2), by simp [mergeAux], by simp [hw], by simp [hw]⟩
  | cons v tl ih =>
    intro c1 c2 hchain w hw
    obtain ⟨ws, we⟩ := v
    have h1 : c1 ≤ ws := (List.chain'_cons.mp hchain).1
    have h2 : List.Chain' (fun a b => a.1 ≤ b.1) ((ws, we) :: tl) :=
      (List.chain'_cons.mp hchain).2
    simp only [mergeAux]
    by_cases hle : ws ≤ c2
    · simp only [if_pos hle]
      have hchain2 : List.Chain' (fun a b => a.1 ≤ b.1) ((c1, max c2 we) :: tl) := by
        cases tl with
        | nil => simp
        | cons u tu =>
          refine List.chain'_cons.mpr ⟨?_, (List.chain'_cons.mp h2).2⟩
          have := (List.chain'_cons.mp h2).1
          simp only at this ⊢
          omega
      have hacc : ∃ m ∈ mergeAux (c1, max c2 we) tl,
          m.1 ≤ c1 ∧ max c2 we ≤ m.2 := by
        obtain ⟨m, hm, hm1, hm2⟩ :=
          ih c1 (max c2 we) hchain2 (c1, max c2 we) (List.mem_cons_self _ _)
        exact ⟨m, hm, hm1, hm2⟩
      rcases List.mem_cons.mp hw with h | h
      · obtain ⟨m, hm, hm1, hm2⟩ := hacc
        refine ⟨m, hm, ?_, ?_⟩ <;> simp only [h] <;> omega
      · rcases List.mem_cons.mp h with h | h
        · obtain ⟨m, hm, hm1, hm2⟩ := hacc
          refine ⟨m, hm, ?_, ?_⟩ <;> simp only [h] <;> omega
        · exact ih c1 (max c2 we) hchain2 w (List.mem_cons_of_mem _ h)
    · simp only [if_neg hle]
      rcases List.mem_cons.mp hw with h | h
      · exact ⟨(c1, c2), List.mem_cons_self _ _, by simp [h], by simp [h]⟩
      · obtain ⟨m, hm, hcont⟩ := ih ws we h2 w h
        exact ⟨m, List.mem_cons_of_mem _ hm, hcont⟩

/-- The merge loop preserves well-formedness (`start ≤ end`) of windows. -/
theorem mergeAux_wf (l : List (Nat × Nat)) :
    ∀ c1 c2 : Nat, c1 ≤ c2 → (∀ w ∈ l, w.1 ≤ w.2) →
      ∀ m ∈ mergeAux (c1, c2) l, m.1 ≤ m.2 := by
  induction l with
  | nil =>
    intro c1 c2 hcur _ m hm
    simp only [mergeAux, List.mem_singleton] at hm
    simp [hm, hcur]
  | cons v tl ih =>
    intro c1 c2 hcur hwf m hm
    obtain ⟨ws, we⟩ := v
    simp only [mergeAux] at hm
    by_cases hle : ws ≤ c2
    · simp only [if_pos hle] at hm
      exact ih c1 (max c2 we) (by omega)
        (fun w hw => hwf w (List.mem_cons_of_mem _ hw)) m hm
    · simp only [if_neg hle] at hm
      rcases List.mem_cons.mp hm with h | h
      · simp [h, hcur]
      · refine ih ws we ?_ (fun w hw => hwf w (List.mem_cons_of_mem _ hw)) m h
        have := hwf (ws, we) (List.mem_cons_self _ _)
        simpa using this

/-- A successful scan starts at or after the scan origin and the match fits
inside the scanned suffix (for a non-empty needle). -/
theorem findFrom_some_bound (nee : Str) (hne : nee ≠ []) :
    ∀ (hay : Str) (i j : Nat), findFrom nee hay i = some j →
      i ≤ j ∧ j + nee.length ≤ i + hay.length := by
  intro hay
  induction hay with
  | nil =>
    intro i j h
    rw [findFrom] at h
    have : nee.isPrefixOf ([] : Str) = false := by
      cases nee with
      | nil => exact absurd rfl hne
      | cons c t => rfl
    simp [this] at h
  | cons a t ih =>
    intro i j h
    rw [findFrom] at h
    by_cases hp : nee.isPrefixOf (a :: t)
    · simp only [if_pos hp, Option.some.injEq] at h
      subst h
      have hlen : nee.length ≤ (a :: t).length := by
        have := List.IsPrefix.length_le (List.isPrefixOf_iff_prefix.mp hp)
        exact this
      constructor
      · exact le_refl _
      · simpa using hlen
    · simp only [if_neg hp] at h
      obtain ⟨h1, h2⟩ := ih (i + 1) j h
      constructor
      · omega
      · simp only [List.length_cons]
        omega

/-- Windows collected for one keyword are well-formed (`start ≤ end`),
provided the scan begins inside the text and the needle is non-empty. -/
theorem collectKw_wf (restLower kwLower : Str) (kwLen winChars : Nat)
    (hne : kwLower ≠ []) (hlen : kwLen ≤ kwLower.length) :
    ∀ (fuel start : Nat), start ≤ restLower.length →
      ∀ w ∈ collectKw restLower kwLower kwLen winChars fuel start, w.1 ≤ w.2 := by
  intro fuel
  induction fuel with
  | zero => intro start _ w hw; simp [collectKw] at hw
  | succ fuel ih =>
    intro start hstart w hw
    rw [collectKw] at hw
    cases hfind : findFrom kwLower (restLower.drop start) start with
    | none => simp [hfind] at hw
    | some idx =>
      simp only [hfind] at hw
      have hbound := findFrom_some_bound kwLower hne (restLower.drop start) start idx hfind
      rw [List.length_drop] at hbound
      have hidx_le : idx + kwLower.length ≤ restLower.length := by omega
      rcases List.mem_cons.mp hw with h | h
      · simp only [h]
        omega
      · exact ih (idx + kwLen) (by omega) w h

/-- Every configured keyword is non-empty. -/
theorem trade_keywords_ne_nil : ∀ kw ∈ TRADE_KEYWORDS, kw ≠ [] := by decide

/-- Every window collected by the enabled truncation path is well-formed. -/
theorem windows_of_rest_wf (rest : Str) :
    ∀ w ∈ windows_of_rest rest, w.1 ≤ w.2 := by
  intro w hw
  unfold windows_of_rest at hw
  simp only [List.mem_flatMap] at hw
  obtain ⟨kw, hkw, hmem⟩ := hw
  have hne : pyLower kw ≠ [] := by
    have := trade_keywords_ne_nil kw hkw
    intro hcontra
    exact this (by simpa [pyLower] using hcontra)
  have hlen : kw.length ≤ (pyLower kw).length := by
    simp [pyLower]
  exact collectKw_wf (pyLower rest) (pyLower kw) kw.length
    (KEYWORD_WINDOW_TOKENS * CHARS_PER_TOKEN) hne hlen _ 0 (by omega) w hmem

/-- Sortedness in the Python tuple order implies non-decreasing starts. -/
theorem sorted_lexLe_chain_fst (l : List (Nat × Nat)) (h : List.Sorted lexLe l) :
    List.Chain' (fun a b => a.1 ≤ b.1) l := by
  refine List.Pairwise.chain' ?_
  refine h.imp ?_
  intro a b hab
  unfold lexLe at hab
  omega

/-- Two members of a pairwise-related list are equal or related one way. -/
theorem pairwise_mem_cases {α : Type} {R : α → α → Prop} (l : List α)
    (h : List.Pairwise R l) {a b : α} (ha : a ∈ l) (hb : b ∈ l) :
    a = b ∨ R a b ∨ R b a := by
  induction l with
  | nil => simp at ha
  | cons x t ih =>
    rcases List.mem_cons.mp ha with rfl | ha2
    · rcases List.mem_cons.mp hb with rfl | hb2
      · exact Or.inl rfl
      · exact Or.inr (Or.inl ((List.pairwise_cons.mp h).1 b hb2))
    · rcases List.mem_cons.mp hb with rfl | hb2
      · exact Or.inr (Or.inr ((List.pairwise_cons.mp h).1 a ha2))
      · exact ih (List.pairwise_cons.mp h).2 ha2 hb2

/-- C2: in `truncate_text` with truncation enabled, the window list after the
merge step is sorted by start offset and pairwise non-overlapping for every
input text: consecutive merged windows satisfy `previous end < next start`
(so no two merged windows overlap or touch), every merged window is a
well-formed span, every collected keyword window is contained in some merged
window, and any two keyword windows that overlap or touch end up collapsed
inside one and the same contiguous merged window. -/
theorem trunc_merged_invariant (text : Str) :
    ((trunc_merged text).Pairwise fun a b => a.2 < b.1) ∧
    ((trunc_merged text).Pairwise fun a b => a.1 < b.1) ∧
    (∀ m ∈ trunc_merged text, m.1 ≤ m.2) ∧
    (∀ w ∈ trunc_windows text, ∃ m ∈ trunc_merged text, m.1 ≤ w.1 ∧ w.2 ≤ m.2) ∧
    (∀ w1 ∈ trunc_windows text, ∀ w2 ∈ trunc_windows text,
      w2.1 ≤ w1.2 → w1.1 ≤ w2.2 →
      ∃ m ∈ trunc_merged text, m.1 ≤ w1.1 ∧ w1.2 ≤ m.2 ∧ m.1 ≤ w2.1 ∧ w2.2 ≤ m.2) := by
  have hsorted : List.Sorted lexLe (List.insertionSort lexLe (trunc_windows text)) :=
    List.sorted_insertionSort lexLe (trunc_windows text)
  have hchain : List.Chain' (fun a b => a.1 ≤ b.1)
      (List.insertionSort lexLe (trunc_windows text)) :=
    sorted_lexLe_chain_fst _ hsorted
  have hperm : (List.insertionSort lexLe (trunc_windows text)).Perm (trunc_windows text) :=
    List.perm_insertionSort lexLe (trunc_windows text)
  have hwf : ∀ w ∈ List.insertionSort lexLe (trunc_windows text), w.1 ≤ w.2 :=
    fun w hw => windows_of_rest_wf _ w (hperm.subset hw)
  have hmerged : trunc_merged text =
      merge_windows (List.insertionSort lexLe (trunc_windows text)) := rfl
  have key : ((trunc_merged text).Pairwise fun a b => a.2 < b.1) ∧
      (∀ m ∈ trunc_merged text, m.1 ≤ m.2) ∧
      (∀ w ∈ trunc_windows text, ∃ m ∈ trunc_merged text, m.1 ≤ w.1 ∧ w.2 ≤ m.2) := by
    rw [hmerged]
    cases hs : List.insertionSort lexLe (trunc_windows text) with
    | nil =>
      have hnil : trunc_windows text = [] := (hs ▸ hperm).symm.eq_nil
      simp [merge_windows, hnil]
    | cons c tl =>
      obtain ⟨c1, c2⟩ := c
      rw [hs] at hchain hwf hperm
      refine ⟨?_, ?_, ?_⟩
      · exact mergeAux_pairwise tl c1 c2 hchain
      · refine mergeAux_wf tl c1 c2 ?_ ?_
        · simpa using hwf (c1, c2) (List.mem_cons_self _ _)
        · exact fun w hw => hwf w (List.mem_cons_of_mem _ hw)
      · intro w hw
        exact mergeAux_cover tl c1 c2 hchain w (hperm.symm.subset hw)
  obtain ⟨hpair, hwfm, hcover⟩ := key
  refine ⟨hpair, ?_, hwfm, hcover, ?_⟩
  · refine hpair.imp_of_mem ?_
    intro a b ha _ hab
    have := hwfm a ha
    omega
  · intro w1 hw1 w2 hw2 htouch1 htouch2
    obtain ⟨m1, hm1, hm1a, hm1b⟩ := hcover w1 hw1
    obtain ⟨m2, hm2, hm2a, hm2b⟩ := hcover w2 hw2
    rcases pairwise_mem_cases (trunc_merged text) hpair hm1 hm2 with heq | hr | hr
    · exact ⟨m1, hm1, hm1a, hm1b, heq ▸ hm2a, heq ▸ hm2b⟩
    · exact absurd hr (by omega)
    · exact absurd hr (by omega)

/-- A concrete text for exercising the merge invariant: a 6000-character intro
filler followed by two adjacent keyword occurrences in the remainder. -/
def c2Text : Str := List.replicate 6000 'z' ++ "steelsteel".data

/-- The remainder of `c2Text` after the intro region. -/
theorem c2Text_drop : c2Text.drop (INTRO_TOKENS * CHARS_PER_TOKEN) = "steelsteel".data := by
  unfold c2Text
  have h : INTRO_TOKENS * CHARS_PER_TOKEN = (List.replicate 6000 'z').length := by
    rw [List.length_replicate]
    decide
  rw [h, List.drop_left]

/-- Witness for C2: on `c2Text` the two collected windows `(0, 10)` overlap,
and the invariant theorem places both inside one merged contiguous window. -/
theorem trunc_merged_invariant_witness :
    ∃ m ∈ trunc_merged c2Text, m.1 ≤ 0 ∧ 10 ≤ m.2 ∧ m.1 ≤ 0 ∧ 10 ≤ m.2 := by
  have hw : trunc_windows c2Text = [(0, 10), (0, 10)] := by
    unfold trunc_windows
    rw [c2Text_drop]
    decide
  have hmem : ((0 : Nat), (10 : Nat)) ∈ trunc_windows c2Text := by
    rw [hw]; exact List.mem_cons_self _ _
  exact (trunc_merged_invariant c2Text).2.2.2.2 (0, 10) hmem (0, 10) hmem
    (by decide) (by decide)

/-! ## Classification cache (src/scraper/cache.py) -/

/-- A JSON value, as produced by the external JSON codec. -/
inductive JVal where
  | str (s : Str)
  | num (n : Int)
  | bool (b : Bool)
  | null
  | arr (xs : List JVal)
  | obj (fields : List (Str × JVal))

/-- The content of one stored classification-cache file.  `set_cached` always
writes `json.dumps` of a result list, which `json.loads` parses back to the
same list (the round trip is the JSON codec contract); a file that does not
parse is `corrupt`. -/
inductive CacheBlob where
  | wellFormed (items : List JVal)
  | corrupt (raw : Str)

/-- A flat directory of one file per key: file name to file content. -/
abbrev ClassCache := List (Str × CacheBlob)

/-- `find?`-based association lookup: the file with this exact name. -/
def lookupAssoc {β : Type} (l : List (Str × β)) (k : Str) : Option β :=
  (l.find? fun p => p.1 == k).map Prod.snd

/-- `Path.unlink`: remove the file with this name. -/
def eraseAssoc {β : Type} (l : List (Str × β)) (k : Str) : List (Str × β) :=
  l.filter fun p => !(p.1 == k)

/-- Modelled: `hashlib.sha256(payload.encode()).hexdigest()[:24]` — an
external library digest, abstracted as an injective function of the payload
(the truncated digest is treated as collision-free, as the code and the spec
both do). -/
def sha256_24 (payload : Str) : Str := payload

/-- cache.py `_cache_key` with the prompt-schema version made explicit:
`sha256(f"{text}||{model}||{version}")[:24]`. -/
def classification_cache_key (text model version : Str) : Str :=
  sha256_24 (text ++ "||".data ++ model ++ "||".data ++ version)

/-- cache.py `_cache_key`: the version is the configured PROMPT_VERSION. -/
def cache_key (text model : Str) : Str :=
  classification_cache_key text model PROMPT_VERSION

/-- The backing file name `f"{key}.json"` of one classification record. -/
def classification_cache_file (text model : Str) : Str :=
  cache_key text model ++ ".json".data

/-- cache.py `get_cached`: look the file up; a parse failure deletes the file
and reports a miss.  The returned pair is (result, directory afterwards). -/
def get_cached (store : ClassCache) (text model : Str) :
    Option (List JVal) × ClassCache :=
  match lookupAssoc store (classification_cache_file text model) with
  | none => (none, store)
  | some (CacheBlob.wellFormed items) => (some items, store)
  | some (CacheBlob.corrupt _) =>
    (none, eraseAssoc store (classification_cache_file text model))

/-- cache.py `set_cached`: write `json.dumps(result)` under the key file. -/
def set_cached (store : ClassCache) (text model : Str) (result : List JVal) :
    ClassCache :=
  (classification_cache_file text model, CacheBlob.wellFormed result) :: store

/-- Erasing a file name removes it from the directory. -/
theorem lookupAssoc_eraseAssoc {β : Type} (l : List (Str × β)) (k : Str) :
    lookupAssoc (eraseAssoc l k) k = none := by
  unfold lookupAssoc eraseAssoc
  have h : List.find? (fun p => p.1 == k) (List.filter (fun p => !(p.1 == k)) l) = none := by
    rw [List.find?_eq_none]
    intro x hx
    have := (List.mem_filter.mp hx).2
    simp at this
    simp [this]
  rw [h]
  rfl

/-- Keys differ whenever the text differs (model and version fixed). -/
theorem classification_cache_key_text_ne (t1 t2 m v : Str) (h : t1 ≠ t2) :
    classification_cache_key t1 m v ≠ classification_cache_key t2 m v := by
  unfold classification_cache_key sha256_24
  intro hcontra
  apply h
  exact List.append_cancel_right (List.append_cancel_right
    (List.append_cancel_right (List.append_cancel_right hcontra)))

/-- Keys differ whenever the model differs (text and version fixed). -/
theorem classification_cache_key_model_ne (t m1 m2 v : Str) (h : m1 ≠ m2) :
    classification_cache_key t m1 v ≠ classification_cache_key t m2 v := by
  unfold classification_cache_key sha256_24
  intro hcontra
  apply h
  exact List.append_cancel_left (List.append_cancel_right
    (List.append_cancel_right hcontra))

/-- Keys differ whenever the prompt-schema version differs. -/
theorem classification_cache_key_version_ne (t m v1 v2 : Str) (h : v1 ≠ v2) :
    classification_cache_key t m v1 ≠ classification_cache_key t m v2 := by
  unfold classification_cache_key sha256_24
  intro hcontra
  apply h
  exact List.append_cancel_left hcontra

/-- C7: the classification cache key is a pure function of
(text, model, prompt-schema version): equal inputs give the identical key, and
changing any single one of the three inputs while holding the other two fixed
changes the key.  (The SHA-256 digest is modelled as an injective function.) -/
theorem classification_cache_key_pure :
    (∀ t1 t2 m1 m2 v1 v2 : Str, t1 = t2 → m1 = m2 → v1 = v2 →
      classification_cache_key t1 m1 v1 = classification_cache_key t2 m2 v2) ∧
    (∀ t1 t2 m v : Str, t1 ≠ t2 →
      classification_cache_key t1 m v ≠ classification_cache_key t2 m v) ∧
    (∀ t m1 m2 v : Str, m1 ≠ m2 →
      classification_cache_key t m1 v ≠ classification_cache_key t m2 v) ∧
    (∀ t m v1 v2 : Str, v1 ≠ v2 →
      classification_cache_key t m v1 ≠ classification_cache_key t m v2) := by
  refine ⟨?_, classification_cache_key_text_ne,
    classification_cache_key_model_ne, classification_cache_key_version_ne⟩
  intro t1 t2 m1 m2 v1 v2 ht hm hv
  rw [ht, hm, hv]

/-- Witness for C7 at concrete inputs. -/
theorem classification_cache_key_pure_witness :
    classification_cache_key "a".data "m".data "v".data =
      classification_cache_key "a".data "m".data "v".data ∧
    classification_cache_key "a".data "m".data "v".data ≠
      classification_cache_key "b".data "m".data "v".data ∧
    classification_cache_key "a".data "m".data "v".data ≠
      classification_cache_key "a".data "n".data "v".data ∧
    classification_cache_key "a".data "m".data "v".data ≠
      classification_cache_key "a".data "m".data "w".data :=
  ⟨classification_cache_key_pure.1 _ _ _ _ _ _ rfl rfl rfl,
   classification_cache_key_pure.2.1 _ _ _ _ (by decide),
   classification_cache_key_pure.2.2.1 _ _ _ _ (by decide),
   classification_cache_key_pure.2.2.2 _ _ _ _ (by decide)⟩

/-- The backing file names differ whenever the model differs. -/
theorem classification_cache_file_model_ne (t m1 m2 : Str) (h : m1 ≠ m2) :
    classification_cache_file t m1 ≠ classification_cache_file t m2 := by
  unfold classification_cache_file cache_key
  intro hcontra
  exact classification_cache_key_model_ne t m1 m2 PROMPT_VERSION h
    (List.append_cancel_right hcontra)

/-- C5: storing a result list and reading it back with the same text and model
returns exactly that list, and a lookup under a different model (with no prior
record for that text-model pair) is a miss. -/
theorem classification_cache_roundtrip (store : ClassCache) (text model : Str)
    (result : List JVal) :
    (get_cached (set_cached store text model result) text model).1 = some result ∧
    (∀ model2 : Str, model2 ≠ model →
      lookupAssoc store (classification_cache_file text model2) = none →
      (get_cached (set_cached store text model result) text model2).1 = none) := by
  constructor
  · unfold get_cached set_cached lookupAssoc
    simp
  · intro model2 hne hmiss
    unfold get_cached set_cached lookupAssoc
    have hfile : (classification_cache_file text model ==
        classification_cache_file text model2) = false := by
      rw [beq_eq_false_iff_ne]
      exact classification_cache_file_model_ne text model model2 (Ne.symm hne)
    simp only [List.find?_cons, hfile]
    unfold lookupAssoc at hmiss
    cases hf : List.find? (fun p => p.1 == classification_cache_file text model2) store with
    | none => rfl
    | some p => rw [hf] at hmiss; simp at hmiss

/-- Witness for C5: a concrete store, store then lookup. -/
theorem classification_cache_roundtrip_witness :
    (get_cached (set_cached [] "t".data "m".data [JVal.null]) "t".data "m".data).1 =
      some [JVal.null] ∧
    (get_cached (set_cached [] "t".data "m".data [JVal.null]) "t".data "n".data).1 =
      none :=
  ⟨(classification_cache_roundtrip [] "t".data "m".data [JVal.null]).1,
   (classification_cache_roundtrip [] "t".data "m".data [JVal.null]).2 "n".data
     (by decide) rfl⟩

/-- C6: a stored record that fails to parse is a miss and the backing file is
deleted immediately: the first read returns `none` and removes the file, so a
second read also misses, with no record for that key left in storage. -/
theorem classification_cache_selfheal (store : ClassCache) (text model : Str)
    (raw : Str)
    (h : lookupAssoc store (classification_cache_file text model) =
      some (CacheBlob.corrupt raw)) :
    (get_cached store text model).1 = none ∧
    lookupAssoc (get_cached store text model).2
      (classification_cache_file text model) = none ∧
    (get_cached (get_cached store text model).2 text model).1 = none := by
  have hstate : get_cached store text model =
      (none, eraseAssoc store (classification_cache_file text model)) := by
    unfold get_cached
    rw [h]
  refine ⟨by rw [hstate], ?_, ?_⟩
  · rw [hstate]
    exact lookupAssoc_eraseAssoc store (classification_cache_file text model)
  · rw [hstate]
    unfold get_cached
    rw [lookupAssoc_eraseAssoc store (classification_cache_file text model)]

/-- Witness for C6: one corrupt record heals away. -/
theorem classification_cache_selfheal_witness :
    (get_cached [(classification_cache_file "t".data "m".data,
        CacheBlob.corrupt "oops".data)] "t".data "m".data).1 = none ∧
    lookupAssoc (get_cached [(classification_cache_file "t".data "m".data,
        CacheBlob.corrupt "oops".data)] "t".data "m".data).2
      (classification_cache_file "t".data "m".data) = none ∧
    (get_cached (get_cached [(classification_cache_file "t".data "m".data,
        CacheBlob.corrupt "oops".data)] "t".data "m".data).2 "t".data "m".data).1 =
      none :=
  classification_cache_selfheal _ "t".data "m".data "oops".data (by rfl)

/-! ## Entries, trade actions and classification (src/scraper/models.py,
src/scraper/classify.py) -/

/-- models.py `CsmsEntry`. -/
structure CsmsEntry where
  csms_id : Str
  title : Str
  date : Str
  lnks_gd_url : Option Str := none
  govdelivery_url : Option Str := none
  full_text : Option Str := none
deriving DecidableEq

/-- The `action_type` literals accepted by the `TradeAction` schema. -/
def ACTION_TYPES : List Str :=
  ["tariff", "quota", "embargo", "sanction", "duty", "exclusion",
   "suspension", "modification", "investigation", "other"].map String.data

/-- The `status` literals accepted by the `TradeAction` schema. -/
def ACTION_STATUSES : List Str :=
  ["active", "expired", "pending", "superseded"].map String.data

/-- models.py `TradeAction` (the record the classifier produces). -/
structure TradeAction where
  id : Str
  source_csms_id : Str
  source_url : Str
  title : Str
  summary : Str
  action_type : Str
  countries_affected : List Str
  hs_codes : List Str
  effective_date : Option Str
  expiration_date : Option Str
  status : Str
  federal_authority : Option Str
  duty_rate : Option Str
  raw_excerpt : Str
deriving DecidableEq

/-- Python `dict.get(k)` on a parsed JSON object. -/
def jGet (fields : List (Str × JVal)) (k : Str) : Option JVal :=
  (fields.find? fun p => p.1 == k).map Prod.snd

/-- A string field with a default: absent gives the default; a present value
of a different JSON shape fails the pydantic validation of the item. -/
def jStr (fields : List (Str × JVal)) (k : Str) (dflt : Str) : Option Str :=
  match jGet fields k with
  | none => some dflt
  | some (JVal.str s) => some s
  | some _ => none

/-- An `Optional[str]` field: absent or `null` gives `None`. -/
def jOptStr (fields : List (Str × JVal)) (k : Str) : Option (Option Str) :=
  match jGet fields k with
  | none => some none
  | some JVal.null => some none
  | some (JVal.str s) => some (some s)
  | some _ => none

/-- A `List[str]` field with default `[]`. -/
def jStrList (fields : List (Str × JVal)) (k : Str) : Option (List Str) :=
  match jGet fields k with
  | none => some []
  | some (JVal.arr xs) =>
    xs.mapM fun v =>
      match v with
      | JVal.str s => some s
      | _ => none
  | some _ => none

/-- Modelled: `hashlib.sha256(key_str.encode()).hexdigest()[:8]` in
`_generate_action_id`, abstracted as an injective digest of the key string. -/
def sha256_8 (payload : Str) : Str := payload

/-- classify.py `_generate_action_id`: a deterministic ID from the CSMS id,
the `action_type` field and the item index.  (A non-string `action_type`
contributes its default here, a harmless coarsening of Python f-string
rendering that only affects the opaque ID text.) -/
def generate_action_id (entry : CsmsEntry) (fields : List (Str × JVal))
    (index : Nat) : Str :=
  let atype : Str :=
    match jGet fields "action_type".data with
    | some (JVal.str s) => s
    | _ => []
  "csms-".data ++ entry.csms_id ++ "-".data ++
    sha256_8 (entry.csms_id ++ "-".data ++ atype ++ "-".data ++ (toString index).data)

/-- Python `entry.govdelivery_url or entry.lnks_gd_url or ""`: the first
present and non-empty URL, else empty. -/
def pyTruthy (a : Option Str) : Option Str :=
  match a with
  | some s => if s = [] then none else some s
  | none => none

/-- The `source_url` the classifier stamps on each action. -/
def source_url_of (entry : CsmsEntry) : Str :=
  ((pyTruthy entry.govdelivery_url).orElse fun _ =>
    pyTruthy entry.lnks_gd_url).getD []

/-- One iteration of classify.py `_parse_actions`: validate a raw dict into a
`TradeAction`, or fail (the item is skipped and logged). -/
def parse_action (entry : CsmsEntry) (index : Nat) (v : JVal) :
    Option TradeAction := do
  match v with
  | JVal.obj fields =>
    let title ← jStr fields "title".data entry.title
    let summary ← jStr fields "summary".data []
    let atype ← jStr fields "action_type".data "other".data
    let _ ← if atype ∈ ACTION_TYPES then some () else none
    let countries ← jStrList fields "countries_affected".data
    let hs ← jStrList fields "hs_codes".data
    let eff ← jOptStr fields "effective_date".data
    let exp ← jOptStr fields "expiration_date".data
    let status ← jStr fields "status".data "active".data
    let _ ← if status ∈ ACTION_STATUSES then some () else none
    let fed ← jOptStr fields "federal_authority".data
    let duty ← jOptStr fields "duty_rate".data
    let raw ← jStr fields "raw_excerpt".data []
    some
      { id := generate_action_id entry fields index
        source_csms_id := "CSMS #".data ++ entry.csms_id
        source_url := source_url_of entry
        title := title
        summary := summary
        action_type := atype
        countries_affected := countries
        hs_codes := hs
        effective_date := eff
        expiration_date := exp
        status := status
        federal_authority := fed
        duty_rate := duty
        raw_excerpt := raw.take 200 }
  | _ => none

/-- classify.py `_parse_actions`: validate each raw dict in order, skipping
the malformed ones. -/
def parse_actions (action_dicts : List JVal) (entry : CsmsEntry) :
    List TradeAction :=
  action_dicts.enum.filterMap fun p => parse_action entry p.1 p.2

/-- The outcome of one external classification call, at the boundary the core
sees it: the JSON value parsed out of the raw model reply (after the
markdown-fence stripping), or `none` for a reply that is not JSON, plus the
token usage the API reported. -/
structure ApiReply where
  parsed : Option JVal
  input_tokens : Nat
  output_tokens : Nat

/-- The two exceptions `classify_entry` can raise. -/
inductive ClassifyErr where
  | missingApiKey
  | apiFailure
deriving DecidableEq

/-- What classify.py `classify_entry` returns: the validated actions, the
token usage (zero on a cache hit), how many API calls were made, and the
classification-cache directory afterwards. -/
structure ClassifyOutcome where
  actions : List TradeAction
  input_tokens : Nat
  output_tokens : Nat
  api_calls : Nat
  store : ClassCache

/-- classify.py `classify_entry`: consult the cache first and return with
zero token usage and no API call on a hit; otherwise require the API key,
perform the call (`reply = none` models a raised transport error), coerce a
non-list or unparsable reply to `[]`, cache the raw result, and validate. -/
def classify_entry (entry : CsmsEntry) (text model : Str) (apiKey : Option Str)
    (reply : Option ApiReply) (store : ClassCache) :
    Except ClassifyErr ClassifyOutcome :=
  match get_cached store text model with
  | (some cached, store1) =>
    Except.ok ⟨parse_actions cached entry, 0, 0, 0, store1⟩
  | (none, store1) =>
    match apiKey with
    | none => Except.error ClassifyErr.missingApiKey
    | some _ =>
      match reply with
      | none => Except.error ClassifyErr.apiFailure
      | some r =>
        let action_dicts : List JVal :=
          match r.parsed with
          | some (JVal.arr xs) => xs
          | some _ => []
          | none => []
        let store2 := set_cached store1 text model action_dicts
        Except.ok ⟨parse_actions action_dicts entry,
          r.input_tokens, r.output_tokens, 1, store2⟩

/-- C8: when the classification cache already holds the result `[]` for
(text, model), `classify_entry` returns zero structured action records,
reports zero input and zero output tokens, and makes no call to the
classification service. -/
theorem classify_cache_hit_no_api (entry : CsmsEntry) (text model : Str)
    (apiKey : Option Str) (reply : Option ApiReply) (store : ClassCache)
    (h : (get_cached store text model).1 = some []) :
    classify_entry entry text model apiKey reply store =
      Except.ok ⟨[], 0, 0, 0, (get_cached store text model).2⟩ := by
  unfold classify_entry
  cases hg : get_cached store text model with
  | mk res store1 =>
    rw [hg] at h
    simp only at h
    subst h
    simp [parse_actions]

/-- Witness for C8: a pre-populated empty-result cache record short-circuits
the classifier. -/
theorem classify_cache_hit_no_api_witness :
    classify_entry ⟨"1".data, "t".data, "d".data, none, none, none⟩
        "t".data "m".data none none
        [(classification_cache_file "t".data "m".data, CacheBlob.wellFormed [])] =
      Except.ok ⟨[], 0, 0, 0,
        [(classification_cache_file "t".data "m".data, CacheBlob.wellFormed [])]⟩ :=
  classify_cache_hit_no_api ⟨"1".data, "t".data, "d".data, none, none, none⟩
    "t".data "m".data none none
    [(classification_cache_file "t".data "m".data, CacheBlob.wellFormed [])] rfl

/-! ## Resilient fetcher (src/scraper/crawl.py) -/

/-- The parts of a `requests` response that crawl.py reads: status code, the
final URL after transparent redirects, and the body text. -/
structure HttpResponse where
  status : Nat
  url : Str
  text : Str
deriving DecidableEq

/-- One event of the HTTP script: a response, or a transport-level
`requests.RequestException`. -/
inductive HttpEvent where
  | resp (r : HttpResponse)
  | exc
deriving DecidableEq

/-- What one run of crawl.py `_fetch_with_retry` produces: the returned
response (or `None`), the number of HTTP requests attempted, the sleep
durations between attempts in order, and the unconsumed rest of the script. -/
structure FetchOutcome where
  result : Option HttpResponse
  attempts : Nat
  waits : List Nat
  remaining : List HttpEvent
deriving DecidableEq

/-- crawl.py `_fetch_with_retry`, the `for attempt in range(MAX_RETRIES)`
loop body at a given attempt index: a 200 returns the response; a 429 or 5xx
sleeps `RETRY_BACKOFF_BASE * 2 ** attempt` and retries; any other status
aborts without retry; a transport exception sleeps `RETRY_BACKOFF_BASE` and
retries unless this was the last attempt of the budget.  One script event is
consumed per request. -/
def fetchGo : List HttpEvent → Nat → FetchOutcome
  | events, attempt =>
    if MAX_RETRIES ≤ attempt then ⟨none, attempt, [], events⟩
    else
      match events with
      | [] => ⟨none, attempt, [], []⟩
      | e :: es =>
        match e with
        | HttpEvent.resp r =>
          if r.status = 200 then ⟨some r, attempt + 1, [], es⟩
          else if r.status = 429 ∨ 500 ≤ r.status then
            let o := fetchGo es (attempt + 1)
            ⟨o.result, o.attempts, RETRY_BACKOFF_BASE * 2 ^ attempt :: o.waits,
              o.remaining⟩
          else ⟨none, attempt + 1, [], es⟩
        | HttpEvent.exc =>
          if attempt < MAX_RETRIES - 1 then
            let o := fetchGo es (attempt + 1)
            ⟨o.result, o.attempts, RETRY_BACKOFF_BASE :: o.waits, o.remaining⟩
          else ⟨none, attempt + 1, [], es⟩

/-- crawl.py `_fetch_with_retry` run from attempt 0. -/
def fetch_with_retry (events : List HttpEvent) : FetchOutcome := fetchGo events 0

/-- Modelled: `hashlib.sha256(url.encode()).hexdigest()[:16]` in crawl.py
`_cache_key`, abstracted as an injective digest of the URL. -/
def sha256_16 (url : Str) : Str := url

/-- The text-cache file name `f"csms_{csms_id}.txt"`. -/
def text_cache_file (csmsId : Str) : Str :=
  "csms_".data ++ csmsId ++ ".txt".data

/-- The raw-cache file name `f"bulletin_{_cache_key(url)}.html"`. -/
def raw_cache_file (url : Str) : Str :=
  "bulletin_".data ++ sha256_16 url ++ ".html".data

/-- The two on-disk caches of the fetcher. -/
structure CrawlState where
  rawCache : List (Str × Str)
  textCache : List (Str × Str)
deriving DecidableEq

/-- Write one raw-cache file. -/
def writeRaw (st : CrawlState) (k v : Str) : CrawlState :=
  { st with rawCache := (k, v) :: st.rawCache }

/-- Write one text-cache file. -/
def writeText (st : CrawlState) (k v : Str) : CrawlState :=
  { st with textCache := (k, v) :: st.textCache }

/-- crawl.py `_is_bulletin_page`: a doctype marker in the first 200
characters or a CSMS marker in the first 500. -/
def is_bulletin_page (html : Str) : Bool :=
  occursInB "<!DOCTYPE html".data (html.take 200) ||
    occursInB "CSMS #".data (html.take 500)

/-- The tail of both success paths of crawl.py `fetch_bulletin`: extract the
text (BeautifulSoup extraction enters as the function `extractText`), write
the text cache when the text is non-empty, and return the resolved URL with
the text. -/
def finish_bulletin (extractText : Str → Str) (textKey : Str)
    (html gdUrl : Str) (st : CrawlState) (events : List HttpEvent) :
    (Option Str × Option Str) × CrawlState × List HttpEvent :=
  let text := extractText html
  let st2 := if text = [] then st else writeText st textKey text
  ((some gdUrl, some text), st2, events)

/-- crawl.py `fetch_bulletin` after an HTML page is in hand (from the raw
cache or a live fetch): either it is already the bulletin page, or it is a
JS-redirect stub whose destination (`resolveJs`, the BeautifulSoup anchor
lookup) is fetched through its own cache-checked, retried request. -/
def bulletin_after_html (extractText : Str → Str) (resolveJs : Str → Option Str)
    (csmsId : Str) (html finalUrl : Str) (st : CrawlState)
    (events : List HttpEvent) :
    (Option Str × Option Str) × CrawlState × List HttpEvent :=
  if is_bulletin_page html then
    finish_bulletin extractText (text_cache_file csmsId) html finalUrl st events
  else
    match resolveJs html with
    | none => ((none, none), st, events)
    | some gdUrl =>
      match lookupAssoc st.rawCache (raw_cache_file gdUrl) with
      | some html2 =>
        finish_bulletin extractText (text_cache_file csmsId) html2 gdUrl st events
      | none =>
        let o := fetch_with_retry events
        match o.result with
        | none => ((some gdUrl, none), st, o.remaining)
        | some r =>
          let st2 := writeRaw st (raw_cache_file gdUrl) r.text
          finish_bulletin extractText (text_cache_file csmsId) r.text gdUrl st2
            o.remaining

/-- crawl.py `fetch_bulletin`: text cache first (returning the input short
link as the resolved URL), then the raw-HTML cache keyed by the short-link
hash, then a live fetch whose body is persisted in the raw cache before any
further processing. -/
def fetch_bulletin (extractText : Str → Str) (resolveJs : Str → Option Str)
    (lnksUrl csmsId : Str) (st : CrawlState) (events : List HttpEvent) :
    (Option Str × Option Str) × CrawlState × List HttpEvent :=
  match lookupAssoc st.textCache (text_cache_file csmsId) with
  | some text => ((some lnksUrl, some text), st, events)
  | none =>
    match lookupAssoc st.rawCache (raw_cache_file lnksUrl) with
    | some html =>
      bulletin_after_html extractText resolveJs csmsId html lnksUrl st events
    | none =>
      let o := fetch_with_retry events
      match o.result with
      | none => ((none, none), st, o.remaining)
      | some r =>
        let st2 := writeRaw st (raw_cache_file lnksUrl) r.text
        bulletin_after_html extractText resolveJs csmsId r.text r.url st2
          o.remaining


/-- A run of rate-limited responses followed by a success: the loop makes one
request per script event, sleeping `RETRY_BACKOFF_BASE * 2 ^ attempt` after
each 429, and returns the success with the rest of the script unconsumed. -/
theorem fetchGo_429_then_success (rs : List HttpResponse) (r200 : HttpResponse)
    (h429 : ∀ r ∈ rs, r.status = 429) (h200 : r200.status = 200) :
    ∀ a : Nat, a + rs.length < MAX_RETRIES →
      fetchGo (rs.map HttpEvent.resp ++ [HttpEvent.resp r200]) a =
        ⟨some r200, a + rs.length + 1,
          (List.range rs.length).map fun i => RETRY_BACKOFF_BASE * 2 ^ (a + i), []⟩ := by
  induction rs with
  | nil =>
    intro a ha
    simp only [List.length_nil, Nat.add_zero] at ha
    rw [List.map_nil, List.nil_append, fetchGo]
    rw [if_neg (show ¬ MAX_RETRIES ≤ a by omega)]
    simp [h200]
  | cons r tl ih =>
    intro a ha
    simp only [List.length_cons] at ha
    have hr : r.status = 429 := h429 r (List.mem_cons_self _ _)
    have h429tl : ∀ x ∈ tl, x.status = 429 :=
      fun x hx => h429 x (List.mem_cons_of_mem _ hx)
    rw [List.map_cons, List.cons_append, fetchGo]
    rw [if_neg (show ¬ MAX_RETRIES ≤ a by omega)]
    simp only [hr]
    rw [if_neg (show ¬ (429 : Nat) = 200 by decide)]
    rw [if_pos (Or.inl trivial)]
    rw [ih h429tl (a + 1) (by omega)]
    have hw : (List.range (tl.length + 1)).map
        (fun i => RETRY_BACKOFF_BASE * 2 ^ (a + i)) =
        RETRY_BACKOFF_BASE * 2 ^ a ::
          (List.range tl.length).map fun i => RETRY_BACKOFF_BASE * 2 ^ (a + 1 + i) := by
      rw [List.range_succ_eq_map, List.map_cons, List.map_map]
      refine congrArg₂ _ (by rw [Nat.add_zero]) ?_
      apply List.map_congr_left
      intro i _
      simp only [Function.comp_apply]
      have hadd : a + 1 + i = a + i.succ := by omega
      rw [hadd]
    simp only [List.length_cons]
    rw [hw]
    simp
    omega

/-- The exponential backoff schedule is strictly increasing. -/
theorem backoff_waits_increasing (k : Nat) :
    ((List.range k).map fun i => RETRY_BACKOFF_BASE * 2 ^ i).Chain' (· < ·) := by
  apply List.Pairwise.chain'
  refine (List.pairwise_lt_range k).map (fun i => RETRY_BACKOFF_BASE * 2 ^ i) ?_
  intro i j hij
  show RETRY_BACKOFF_BASE * 2 ^ i < RETRY_BACKOFF_BASE * 2 ^ j
  have h2 : (2 : Nat) ^ i < 2 ^ j := Nat.pow_lt_pow_right (by omega) hij
  rw [show RETRY_BACKOFF_BASE = 10 from rfl]
  omega

/-- A raw-cache write is immediately visible. -/
theorem lookupAssoc_writeRaw_self (st : CrawlState) (k v : Str) :
    lookupAssoc (writeRaw st k v).rawCache k = some v := by
  simp [writeRaw, lookupAssoc]

/-- Once the HTTP script is exhausted, the post-fetch processing of
`fetch_bulletin` never removes or overwrites an existing raw-cache record. -/
theorem bulletin_after_html_preserves_raw (extractText : Str → Str)
    (resolveJs : Str → Option Str) (csmsId html finalUrl : Str)
    (st : CrawlState) (k v : Str)
    (h : lookupAssoc st.rawCache k = some v) :
    lookupAssoc
      (bulletin_after_html extractText resolveJs csmsId html finalUrl st
        []).2.1.rawCache k = some v := by
  unfold bulletin_after_html
  by_cases hb : is_bulletin_page html = true
  · simp only [hb, if_true]
    unfold finish_bulletin writeText
    by_cases ht : extractText html = [] <;> simp [ht, h]
  · simp only [hb, if_false]
    cases hres : resolveJs html with
    | none => simpa using h
    | some gdUrl =>
      simp only
      cases hlook : lookupAssoc st.rawCache (raw_cache_file gdUrl) with
      | some html2 =>
        unfold finish_bulletin writeText
        by_cases ht : extractText html2 = [] <;> simp [ht, h]
      | none =>
        have hfetch : fetch_with_retry ([] : List HttpEvent) = ⟨none, 0, [], []⟩ := rfl
        simp [hfetch, h]

/-- C3: for a script of `k` HTTP 429 responses (`k < MAX_RETRIES`) followed by
a 200 response, `_fetch_with_retry` makes exactly `k + 1` attempts, waiting
`RETRY_BACKOFF_BASE * 2 ^ attempt` between attempts — strictly increasing
waits — and returns the successful response, whose body `fetch_bulletin`
then persists in the raw cache under the short-link key. -/
theorem retry_backoff_success_and_cached
    (k : Nat) (hk : k < MAX_RETRIES)
    (rs : List HttpResponse) (hlen : rs.length = k)
    (h429 : ∀ r ∈ rs, r.status = 429)
    (r200 : HttpResponse) (h200 : r200.status = 200)
    (extractText : Str → Str) (resolveJs : Str → Option Str)
    (st : CrawlState) (lnksUrl csmsId : Str)
    (hTxt : lookupAssoc st.textCache (text_cache_file csmsId) = none)
    (hRaw : lookupAssoc st.rawCache (raw_cache_file lnksUrl) = none) :
    fetch_with_retry (rs.map HttpEvent.resp ++ [HttpEvent.resp r200]) =
      ⟨some r200, k + 1, (List.range k).map fun i => RETRY_BACKOFF_BASE * 2 ^ i, []⟩ ∧
    ((List.range k).map fun i => RETRY_BACKOFF_BASE * 2 ^ i).Chain' (· < ·) ∧
    lookupAssoc
      (fetch_bulletin extractText resolveJs lnksUrl csmsId st
        (rs.map HttpEvent.resp ++ [HttpEvent.resp r200])).2.1.rawCache
      (raw_cache_file lnksUrl) = some r200.text := by
  have hfetch : fetch_with_retry (rs.map HttpEvent.resp ++ [HttpEvent.resp r200]) =
      ⟨some r200, k + 1, (List.range k).map fun i => RETRY_BACKOFF_BASE * 2 ^ i, []⟩ := by
    unfold fetch_with_retry
    rw [fetchGo_429_then_success rs r200 h429 h200 0 (by omega)]
    simp [hlen]
  refine ⟨hfetch, backoff_waits_increasing k, ?_⟩
  unfold fetch_bulletin
  rw [hTxt]
  simp only [hRaw, hfetch]
  exact bulletin_after_html_preserves_raw extractText resolveJs csmsId r200.text
    r200.url (writeRaw st (raw_cache_file lnksUrl) r200.text)
    (raw_cache_file lnksUrl) r200.text
    (lookupAssoc_writeRaw_self st (raw_cache_file lnksUrl) r200.text)

/-- Witness for C3: two 429s then a 200, against empty caches. -/
theorem retry_backoff_success_and_cached_witness :
    fetch_with_retry [HttpEvent.resp ⟨429, [], []⟩, HttpEvent.resp ⟨429, [], []⟩,
        HttpEvent.resp ⟨200, "u".data, "body".data⟩] =
      ⟨some ⟨200, "u".data, "body".data⟩, 3,
        (List.range 2).map fun i => RETRY_BACKOFF_BASE * 2 ^ i, []⟩ ∧
    ((List.range 2).map fun i => RETRY_BACKOFF_BASE * 2 ^ i).Chain' (· < ·) ∧
    lookupAssoc
      (fetch_bulletin (fun _ => []) (fun _ => none) "l".data "1".data ⟨[], []⟩
        [HttpEvent.resp ⟨429, [], []⟩, HttpEvent.resp ⟨429, [], []⟩,
         HttpEvent.resp ⟨200, "u".data, "body".data⟩]).2.1.rawCache
      (raw_cache_file "l".data) = some "body".data := by
  have h := retry_backoff_success_and_cached 2 (by decide)
    [⟨429, [], []⟩, ⟨429, [], []⟩] rfl (by decide)
    ⟨200, "u".data, "body".data⟩ rfl (fun _ => []) (fun _ => none)
    ⟨[], []⟩ "l".data "1".data rfl rfl
  exact h

/-- Counterexample to C4 as stated: on persistent transport-level failure the
code makes 3 attempts (two retries, each after the base delay), not the
claimed single retry followed by giving up after 2 attempts. -/
theorem transport_retry_once_counterexample :
    (fetch_with_retry [HttpEvent.exc, HttpEvent.exc, HttpEvent.exc]).attempts = 3 ∧
    (fetch_with_retry [HttpEvent.exc, HttpEvent.exc, HttpEvent.exc]).waits =
      [RETRY_BACKOFF_BASE, RETRY_BACKOFF_BASE] ∧
    (fetch_with_retry [HttpEvent.exc, HttpEvent.exc, HttpEvent.exc]).result = none ∧
    (fetch_with_retry [HttpEvent.exc, HttpEvent.exc, HttpEvent.exc]).attempts ≠ 2 := by
  decide

/-- C4 (amended): on persistent transport-level failure `_fetch_with_retry`
keeps retrying after waiting the base delay until the `MAX_RETRIES = 3`
attempt budget is exhausted — so it retries twice more, then gives up and
returns failure; every wait between transport-failure attempts equals the
base delay. -/
theorem transport_failure_retry_budget (events : List HttpEvent)
    (hlen : MAX_RETRIES ≤ events.length)
    (hexc : ∀ e ∈ events, e = HttpEvent.exc) :
    (fetch_with_retry events).result = none ∧
    (fetch_with_retry events).attempts = MAX_RETRIES ∧
    (fetch_with_retry events).waits =
      List.replicate (MAX_RETRIES - 1) RETRY_BACKOFF_BASE := by
  match events with
  | [] => simp [MAX_RETRIES] at hlen
  | [_] => simp [MAX_RETRIES] at hlen
  | [_, _] => simp [MAX_RETRIES] at hlen
  | e1 :: e2 :: e3 :: tl =>
    have h1 := hexc e1 (by simp)
    have h2 := hexc e2 (by simp)
    have h3 := hexc e3 (by simp)
    subst h1
    subst h2
    subst h3
    refine ⟨?_, ?_, ?_⟩ <;>
      · rw [fetch_with_retry, fetchGo, fetchGo, fetchGo]
        simp [MAX_RETRIES, RETRY_BACKOFF_BASE, List.replicate]

/-- Witness for the amended C4: three consecutive transport failures. -/
theorem transport_failure_retry_budget_witness :
    (fetch_with_retry [HttpEvent.exc, HttpEvent.exc, HttpEvent.exc]).result = none ∧
    (fetch_with_retry [HttpEvent.exc, HttpEvent.exc, HttpEvent.exc]).attempts =
      MAX_RETRIES ∧
    (fetch_with_retry [HttpEvent.exc, HttpEvent.exc, HttpEvent.exc]).waits =
      List.replicate (MAX_RETRIES - 1) RETRY_BACKOFF_BASE :=
  transport_failure_retry_budget [HttpEvent.exc, HttpEvent.exc, HttpEvent.exc]
    (by decide) (by decide)

/-- C10: whenever the per-identifier text-cache record exists,
`fetch_bulletin` returns the input short link itself as the resolved-link
component (paired with the cached text), regardless of the HTTP script —
that is, regardless of what the short link actually resolves to. -/
theorem fetch_bulletin_text_cache_hit (extractText : Str → Str)
    (resolveJs : Str → Option Str) (lnksUrl csmsId : Str) (st : CrawlState)
    (events : List HttpEvent) (text : Str)
    (h : lookupAssoc st.textCache (text_cache_file csmsId) = some text) :
    fetch_bulletin extractText resolveJs lnksUrl csmsId st events =
      ((some lnksUrl, some text), st, events) := by
  unfold fetch_bulletin
  rw [h]

/-- Witness for C10: a text-cache hit reports the short link, not the
destination URL of the script. -/
theorem fetch_bulletin_text_cache_hit_witness :
    fetch_bulletin (fun _ => []) (fun _ => none) "l".data "1".data
      ⟨[], [(text_cache_file "1".data, "cached".data)]⟩
      [HttpEvent.resp ⟨200, "elsewhere".data, "page".data⟩] =
      ((some "l".data, some "cached".data),
        ⟨[], [(text_cache_file "1".data, "cached".data)]⟩,
        [HttpEvent.resp ⟨200, "elsewhere".data, "page".data⟩]) :=
  fetch_bulletin_text_cache_hit (fun _ => []) (fun _ => none) "l".data "1".data
    ⟨[], [(text_cache_file "1".data, "cached".data)]⟩
    [HttpEvent.resp ⟨200, "elsewhere".data, "page".data⟩] "cached".data rfl

/-! ## Keyword prefilter (src/scraper/prefilter.py) -/

/-- The search text of prefilter.py `passes_keyword_filter`:
`text = entry.title.lower()`, then `if entry.full_text:` (Python truthiness,
so present and non-empty) `text += " " + entry.full_text.lower()`. -/
def prefilter_search_text (entry : CsmsEntry) : Str :=
  pyLower entry.title ++
    (match entry.full_text with
     | some ft => if ft = [] then [] else " ".data ++ pyLower ft
     | none => [])

/-- prefilter.py `passes_keyword_filter`: true when some trade keyword occurs
lower-cased in the search text (the for-loop with early return is `any`). -/
def passes_keyword_filter (entry : CsmsEntry) : Bool :=
  TRADE_KEYWORDS.any fun kw => occursInB (pyLower kw) (prefilter_search_text entry)

/-- The enabled loop of prefilter.py `apply_prefilter`: collect the surviving
entries in input order and count the skipped ones. -/
def prefilter_loop : List CsmsEntry → List CsmsEntry × Nat
  | [] => ([], 0)
  | e :: es =>
    let r := prefilter_loop es
    if passes_keyword_filter e then (e :: r.1, r.2) else (r.1, r.2 + 1)

/-- prefilter.py `apply_prefilter`: disabled passes everything through with
zero skipped. -/
def apply_prefilter (entries : List CsmsEntry) (enabled : Bool) :
    List CsmsEntry × Nat :=
  if enabled = false then (entries, 0) else prefilter_loop entries

/-- The scanner finds a match exactly when the needle occurs somewhere in the
haystack. -/
theorem findFrom_isSome_iff (nee : Str) :
    ∀ (hay : Str) (i : Nat),
      (findFrom nee hay i).isSome = true ↔
        ∃ j, nee.isPrefixOf (hay.drop j) = true := by
  intro hay
  induction hay with
  | nil =>
    intro i
    rw [findFrom]
    by_cases hp : nee.isPrefixOf [] = true
    · rw [if_pos hp]
      simp only [Option.isSome_some, true_iff]
      exact ⟨0, by simpa using hp⟩
    · rw [if_neg hp]
      simp only [Option.isSome_none]
      constructor
      · intro h
        simp at h
      · intro hcontra
        obtain ⟨j, hj⟩ := hcontra
        rw [List.drop_nil] at hj
        exact absurd hj hp
  | cons a t ih =>
    intro i
    rw [findFrom]
    by_cases hp : nee.isPrefixOf (a :: t) = true
    · rw [if_pos hp]
      simp only [Option.isSome_some, true_iff]
      exact ⟨0, by simpa using hp⟩
    · rw [if_neg hp]
      rw [ih (i + 1)]
      constructor
      · rintro ⟨j, hj⟩
        exact ⟨j + 1, by simpa using hj⟩
      · rintro ⟨j, hj⟩
        cases j with
        | zero =>
          rw [List.drop_zero] at hj
          exact absurd hj hp
        | succ j => exact ⟨j, by simpa using hj⟩

/-- Python `nee in hay` agrees with the declarative occurrence predicate. -/
theorem occursInB_iff (nee hay : Str) :
    occursInB nee hay = true ↔ OccursIn nee hay := by
  unfold occursInB OccursIn
  exact findFrom_isSome_iff nee hay 0

/-- The prefilter loop computes the filter of the survivors and the count of
the skipped. -/
theorem prefilter_loop_spec (entries : List CsmsEntry) :
    prefilter_loop entries =
      (entries.filter passes_keyword_filter,
        entries.countP fun e => !passes_keyword_filter e) := by
  induction entries with
  | nil => rfl
  | cons e es ih =>
    rw [prefilter_loop, ih]
    by_cases hp : passes_keyword_filter e = true <;>
      simp [hp, List.filter_cons, List.countP_cons]

/-- C9 (amended): `passes_keyword_filter` is true exactly when some configured
keyword occurs, case-insensitively, as a substring of the title and (when
present and non-empty) the full text joined by a single space; and
`apply_prefilter` with the filter enabled returns exactly the satisfying
entries in input order and reports the others as skipped, while with the
filter disabled it returns all entries and reports zero skipped. -/
theorem prefilter_spec :
    (∀ entry : CsmsEntry, passes_keyword_filter entry = true ↔
      ∃ kw ∈ TRADE_KEYWORDS, OccursIn (pyLower kw) (prefilter_search_text entry)) ∧
    (∀ entries : List CsmsEntry,
      apply_prefilter entries true =
        (entries.filter passes_keyword_filter,
          entries.countP fun e => !passes_keyword_filter e) ∧
      apply_prefilter entries false = (entries, 0)) := by
  constructor
  · intro entry
    unfold passes_keyword_filter
    rw [List.any_eq_true]
    simp only [occursInB_iff]
  · intro entries
    constructor
    · rw [show apply_prefilter entries true = prefilter_loop entries from rfl]
      exact prefilter_loop_spec entries
    · rfl

/-- Counterexample to C9 as stated: the code joins title and full text with a
space, so a keyword occurrence that spans the title-text boundary is missed.
With title "st" and full text "eel", the keyword "steel" occurs in the plain
concatenation of title and full text, yet `passes_keyword_filter` is false. -/
theorem prefilter_concat_counterexample :
    passes_keyword_filter
      ⟨"1".data, "st".data, "d".data, none, none, some "eel".data⟩ = false ∧
    ∃ kw ∈ TRADE_KEYWORDS, OccursIn (pyLower kw) (pyLower ("st".data ++ "eel".data)) := by
  constructor
  · decide
  · exact ⟨"steel".data, by decide, 0, by decide⟩

/-- Witness for C9 (amended) at concrete inputs. -/
theorem prefilter_spec_witness :
    passes_keyword_filter
      ⟨"1".data, "Steel tariffs".data, "d".data, none, none, none⟩ = true ∧
    apply_prefilter
      [⟨"1".data, "Steel tariffs".data, "d".data, none, none, none⟩,
       ⟨"2".data, "Holiday notice".data, "d".data, none, none, none⟩] true =
      ([⟨"1".data, "Steel tariffs".data, "d".data, none, none, none⟩], 1) := by
  refine ⟨(prefilter_spec.1 _).mpr ⟨"tariff".data, by decide, 6, by decide⟩, ?_⟩
  rw [(prefilter_spec.2 _).1]
  decide

/-! ## Evaluation of `truncate_text` on a budget-overflow input (claim C1) -/

/-- The keyword planted in the failing text. -/
def steelBlock : Str := "steel".data

/-- The remainder (after the 6000-character intro) of the failing input:
keyword occurrences at offsets 1200, 3600, 4590 and 6996 inside a filler of
the letter z.  The first three occurrences merge into the window (0, 5795),
whose chunk drives the budget to -5; the last gives the disjoint window
(5796, 7001). -/
def c1Rest : Str :=
  List.replicate 1200 'z' ++ (steelBlock ++ (List.replicate 2395 'z' ++ (steelBlock ++
    (List.replicate 985 'z' ++ (steelBlock ++ (List.replicate 2401 'z' ++ steelBlock))))))

/-- The failing input for claim C1: 13001 characters, 3250 estimated tokens. -/
def c1FailText : Str := List.replicate 6000 'z' ++ c1Rest

/-- One step of the scanner past a non-matching offset. -/
theorem findFrom_step (nee : Str) (a : Char) (t : Str) (i : Nat)
    (h : nee.isPrefixOf (a :: t) = false) :
    findFrom nee (a :: t) i = findFrom nee t (i + 1) := by
  rw [findFrom, h]
  simp

/-- The scanner stops at a matching offset. -/
theorem findFrom_found (nee hay : Str) (i : Nat)
    (h : nee.isPrefixOf hay = true) : findFrom nee hay i = some i := by
  rw [findFrom.eq_def]
  simp [h]

/-- A non-empty needle is not found in an exhausted haystack. -/
theorem findFrom_nil_none (nee : Str) (hne : nee ≠ []) (i : Nat) :
    findFrom nee [] i = none := by
  cases nee with
  | nil => exact absurd rfl hne
  | cons a t =>
    rw [findFrom.eq_def]
    simp [List.isPrefixOf]

/-- A list is a prefix of itself followed by anything. -/
theorem isPrefixOf_append_self (l s : Str) : l.isPrefixOf (l ++ s) = true := by
  induction l with
  | nil => simp [List.isPrefixOf]
  | cons a t ih => simp [List.isPrefixOf, ih]

/-- A prefix test fails on a first-character mismatch. -/
theorem isPrefixOf_false_one (c1 d1 : Char) (t w : Str) (h : ¬ c1 = d1) :
    (c1 :: t).isPrefixOf (d1 :: w) = false := by
  simp [List.isPrefixOf, h]

/-- A prefix test fails within the first two characters. -/
theorem isPrefixOf_false_two (c1 c2 d1 d2 : Char) (t w : Str)
    (h : ¬(c1 = d1 ∧ c2 = d2)) :
    (c1 :: c2 :: t).isPrefixOf (d1 :: d2 :: w) = false := by
  by_cases hc : c1 = d1
  · have hc2 : ¬ c2 = d2 := fun h2 => h ⟨hc, h2⟩
    simp [List.isPrefixOf, hc2]
  · simp [List.isPrefixOf, hc]

/-- The scanner skips a run of the filler letter in one step. -/
theorem findFrom_skip_z (c : Char) (t : Str) (hc : ¬ c = 'z') :
    ∀ (n : Nat) (s : Str) (i : Nat),
      findFrom (c :: t) (List.replicate n 'z' ++ s) i = findFrom (c :: t) s (i + n) := by
  intro n
  induction n with
  | zero => intro s i; simp
  | succ n ih =>
    intro s i
    rw [List.replicate_succ, List.cons_append]
    rw [findFrom_step _ _ _ _ (isPrefixOf_false_one c 'z' t _ hc)]
    rw [ih s (i + 1)]
    congr 1
    omega

/-- Sufficient conditions for a needle never to match inside the planted
keyword block or the filler: the needle has at least two characters and
differs, within its first two characters, from every suffix of the block. -/
def SteelSafe : Str → Prop
  | c1 :: c2 :: _ =>
    c1 ≠ 'z' ∧ c1 ≠ 'l' ∧ ¬(c1 = 's' ∧ c2 = 't') ∧ ¬(c1 = 't' ∧ c2 = 'e') ∧
      ¬(c1 = 'e' ∧ c2 = 'e') ∧ ¬(c1 = 'e' ∧ c2 = 'l')
  | _ => False

instance : DecidablePred SteelSafe := by
  intro nee
  match nee with
  | [] => exact isFalse (by simp [SteelSafe])
  | [_] => exact isFalse (by simp [SteelSafe])
  | c1 :: c2 :: t =>
    unfold SteelSafe
    exact inferInstance

/-- A safe needle scans past the whole keyword block in five steps. -/
theorem findFrom_skip_steel (c1 c2 : Char) (t : Str)
    (hsafe : SteelSafe (c1 :: c2 :: t)) :
    ∀ (s : Str) (i : Nat),
      findFrom (c1 :: c2 :: t) (steelBlock ++ s) i =
        findFrom (c1 :: c2 :: t) s (i + 5) := by
  obtain ⟨hz, hl, hst, hte, hee, hel⟩ := hsafe
  intro s i
  rw [show steelBlock ++ s = 's' :: 't' :: 'e' :: 'e' :: 'l' :: s from rfl]
  rw [findFrom_step _ _ _ _ (isPrefixOf_false_two c1 c2 's' 't' t _ hst)]
  rw [findFrom_step _ _ _ _ (isPrefixOf_false_two c1 c2 't' 'e' t _ hte)]
  rw [findFrom_step _ _ _ _ (isPrefixOf_false_two c1 c2 'e' 'e' t _ hee)]
  rw [findFrom_step _ _ _ _ (isPrefixOf_false_two c1 c2 'e' 'l' t _ hel)]
  rw [findFrom_step _ _ _ _ (isPrefixOf_false_one c1 'l' (c2 :: t) _ hl)]

/-- A safe needle does not occur anywhere in the failing remainder. -/
theorem findFrom_c1Rest_none (nee : Str) (hsafe : SteelSafe nee) (i : Nat) :
    findFrom nee c1Rest i = none := by
  match nee with
  | [] => exact absurd hsafe (by simp [SteelSafe])
  | [c] => exact absurd hsafe (by simp [SteelSafe])
  | c1 :: c2 :: t =>
    have hz : ¬ c1 = 'z' := hsafe.1
    unfold c1Rest
    rw [findFrom_skip_z c1 (c2 :: t) hz]
    rw [findFrom_skip_steel c1 c2 t hsafe]
    rw [findFrom_skip_z c1 (c2 :: t) hz]
    rw [findFrom_skip_steel c1 c2 t hsafe]
    rw [findFrom_skip_z c1 (c2 :: t) hz]
    rw [findFrom_skip_steel c1 c2 t hsafe]
    rw [findFrom_skip_z c1 (c2 :: t) hz]
    rw [show steelBlock = steelBlock ++ [] by simp]
    rw [findFrom_skip_steel c1 c2 t hsafe]
    exact findFrom_nil_none _ (by simp) _

/-- Length of the planted keyword. -/
theorem steelBlock_length : steelBlock.length = 5 := rfl

/-- Length of the failing remainder. -/
theorem c1Rest_length : c1Rest.length = 7001 := by
  unfold c1Rest
  simp only [List.length_append, List.length_replicate, steelBlock_length]

/-- The planted keyword is already lower-case. -/
theorem pyLower_steelBlock : pyLower steelBlock = steelBlock := by decide

/-- Lowering fixes a run of the filler letter. -/
theorem map_toLower_zrun (n : Nat) :
    List.map Char.toLower (List.replicate n 'z') = List.replicate n 'z' := by
  rw [List.map_replicate]
  rfl

/-- The failing remainder is already lower-case. -/
theorem pyLower_c1Rest : pyLower c1Rest = c1Rest := by
  unfold c1Rest pyLower
  simp only [List.map_append, map_toLower_zrun]
  rw [show List.map Char.toLower steelBlock = steelBlock from pyLower_steelBlock]

/-- The scanner finds the keyword right after a filler run. -/
theorem findFrom_steel_at (n : Nat) (s : Str) (i : Nat) :
    findFrom steelBlock (List.replicate n 'z' ++ (steelBlock ++ s)) i = some (i + n) := by
  rw [show steelBlock = 's' :: 't' :: 'e' :: 'e' :: 'l' :: ([] : Str) from rfl]
  rw [findFrom_skip_z 's' _ (by decide) n]
  rw [findFrom_found]
  exact isPrefixOf_append_self _ _

/-- The remainder after the first keyword occurrence. -/
theorem c1Rest_drop_1205 :
    c1Rest.drop 1205 = List.replicate 2395 'z' ++ (steelBlock ++
      (List.replicate 985 'z' ++ (steelBlock ++ (List.replicate 2401 'z' ++ steelBlock)))) := by
  unfold c1Rest
  rw [show (1205 : Nat) = (List.replicate 1200 'z').length + 5 by
    rw [List.length_replicate]]
  rw [List.drop_append]
  rw [show (5 : Nat) = (steelBlock).length + 0 from by decide]
  rw [List.drop_append, List.drop_zero]

/-- The remainder after the second keyword occurrence. -/
theorem c1Rest_drop_3605 :
    c1Rest.drop 3605 = List.replicate 985 'z' ++ (steelBlock ++
      (List.replicate 2401 'z' ++ steelBlock)) := by
  unfold c1Rest
  rw [show (3605 : Nat) = (List.replicate 1200 'z').length + 2405 by
    rw [List.length_replicate]]
  rw [List.drop_append]
  rw [show (2405 : Nat) = (steelBlock).length + 2400 from by decide]
  rw [List.drop_append]
  rw [show (2400 : Nat) = (List.replicate 2395 'z').length + 5 by
    rw [List.length_replicate]]
  rw [List.drop_append]
  rw [show (5 : Nat) = (steelBlock).length + 0 from by decide]
  rw [List.drop_append, List.drop_zero]

/-- The remainder after the third keyword occurrence. -/
theorem c1Rest_drop_4595 :
    c1Rest.drop 4595 = List.replicate 2401 'z' ++ steelBlock := by
  unfold c1Rest
  rw [show (4595 : Nat) = (List.replicate 1200 'z').length + 3395 by
    rw [List.length_replicate]]
  rw [List.drop_append]
  rw [show (3395 : Nat) = (steelBlock).length + 3390 from by decide]
  rw [List.drop_append]
  rw [show (3390 : Nat) = (List.replicate 2395 'z').length + 995 by
    rw [List.length_replicate]]
  rw [List.drop_append]
  rw [show (995 : Nat) = (steelBlock).length + 990 from by decide]
  rw [List.drop_append]
  rw [show (990 : Nat) = (List.replicate 985 'z').length + 5 by
    rw [List.length_replicate]]
  rw [List.drop_append]
  rw [show (5 : Nat) = (steelBlock).length + 0 from by decide]
  rw [List.drop_append, List.drop_zero]

/-- The remainder after the last keyword occurrence is empty. -/
theorem c1Rest_drop_7001 : c1Rest.drop 7001 = [] := by
  rw [show (7001 : Nat) = c1Rest.length from c1Rest_length.symm]
  exact List.drop_length c1Rest

/-- Unfolding of one iteration of the window-collection loop. -/
theorem collectKw_succ (restLower kwLower : Str) (kwLen winChars fuel start : Nat) :
    collectKw restLower kwLower kwLen winChars (fuel + 1) start =
      (match findFrom kwLower (restLower.drop start) start with
       | none => []
       | some idx =>
         (idx - winChars, min restLower.length (idx + kwLen + winChars)) ::
           collectKw restLower kwLower kwLen winChars fuel (idx + kwLen)) := rfl

/-- The four windows collected for the planted keyword. -/
theorem collect_steel :
    collectKw c1Rest steelBlock 5 1200 (7001 + 1) 0 =
      [(0, 2405), (2400, 4805), (3390, 5795), (5796, 7001)] := by
  rw [collectKw_succ, List.drop_zero]
  rw [show c1Rest = List.replicate 1200 'z' ++ (steelBlock ++
    (List.replicate 2395 'z' ++ (steelBlock ++ (List.replicate 985 'z' ++ (steelBlock ++
      (List.replicate 2401 'z' ++ steelBlock)))))) from rfl]
  rw [findFrom_steel_at 1200 _ 0]
  simp only
  rw [show (7001 : Nat) = 7000 + 1 from rfl, collectKw_succ]
  rw [show ((0 : Nat) + 1200 + 5 : Nat) = 1205 from rfl]
  rw [show (List.replicate 1200 'z' ++ (steelBlock ++ (List.replicate 2395 'z' ++
      (steelBlock ++ (List.replicate 985 'z' ++ (steelBlock ++
        (List.replicate 2401 'z' ++ steelBlock))))))) = c1Rest from rfl]
  rw [c1Rest_drop_1205]
  rw [findFrom_steel_at 2395 _ 1205]
  simp only
  rw [show (7000 : Nat) = 6999 + 1 from rfl, collectKw_succ]
  rw [show ((1205 : Nat) + 2395 + 5 : Nat) = 3605 from rfl]
  rw [c1Rest_drop_3605]
  rw [findFrom_steel_at 985 _ 3605]
  simp only
  rw [show (6999 : Nat) = 6998 + 1 from rfl, collectKw_succ]
  rw [show ((3605 : Nat) + 985 + 5 : Nat) = 4595 from rfl]
  rw [c1Rest_drop_4595]
  rw [show List.replicate 2401 'z' ++ steelBlock =
    List.replicate 2401 'z' ++ (steelBlock ++ []) by rw [List.append_nil]]
  rw [findFrom_steel_at 2401 _ 4595]
  simp only
  rw [show (6998 : Nat) = 6997 + 1 from rfl, collectKw_succ]
  rw [show ((4595 : Nat) + 2401 + 5 : Nat) = 7001 from rfl]
  rw [c1Rest_drop_7001]
  rw [findFrom_nil_none steelBlock (by decide) 7001]
  simp only
  rw [c1Rest_length]
  norm_num

/-- A safe keyword collects no windows from the failing remainder. -/
theorem collect_none_of_safe (nee : Str) (hsafe : SteelSafe nee)
    (kwLen : Nat) :
    collectKw c1Rest nee kwLen 1200 (7001 + 1) 0 = [] := by
  rw [collectKw_succ, List.drop_zero, findFrom_c1Rest_none nee hsafe 0]

/-- A flat map over a list in which exactly one element contributes equals
that contribution. -/
theorem flatMap_eq_of_single (g : Str → List (Nat × Nat)) (hit : Str)
    (W : List (Nat × Nat)) :
    ∀ l : List Str, l.count hit = 1 → (∀ x ∈ l, x ≠ hit → g x = []) →
      g hit = W → l.flatMap g = W := by
  intro l
  induction l with
  | nil => intro hcount; simp at hcount
  | cons a t ih =>
    intro hcount hnone hhit
    rw [List.flatMap_cons]
    by_cases ha : a = hit
    · subst ha
      have htz : t.count a = 0 := by
        rw [List.count_cons] at hcount
        simp at hcount
        omega
      have hnotmem : a ∉ t := List.count_eq_zero.mp htz
      have ht : t.flatMap g = [] := by
        rw [List.flatMap_eq_nil_iff]
        intro x hx
        exact hnone x (List.mem_cons_of_mem _ hx)
          (fun hxa => hnotmem (hxa ▸ hx))
      rw [hhit, ht, List.append_nil]
    · have hga : g a = [] := hnone a (List.mem_cons_self _ _) ha
      rw [hga, List.nil_append]
      refine ih ?_ (fun x hx hxh => hnone x (List.mem_cons_of_mem _ hx) hxh) hhit
      rw [List.count_cons] at hcount
      simp [ha] at hcount
      omega

/-- Every configured keyword other than the planted one is safe. -/
theorem trade_keywords_safe :
    ∀ kw ∈ TRADE_KEYWORDS, kw ≠ "steel".data → SteelSafe (pyLower kw) := by
  decide

/-- The planted keyword occurs once in the configured list. -/
theorem trade_keywords_count_steel : TRADE_KEYWORDS.count "steel".data = 1 := by
  decide

/-- All windows `truncate_text` collects on the failing remainder. -/
theorem windows_c1Rest :
    windows_of_rest c1Rest = [(0, 2405), (2400, 4805), (3390, 5795), (5796, 7001)] := by
  unfold windows_of_rest
  rw [pyLower_c1Rest]
  show TRADE_KEYWORDS.flatMap (fun kw => collectKw c1Rest (pyLower kw) kw.length
    (KEYWORD_WINDOW_TOKENS * CHARS_PER_TOKEN) (c1Rest.length + 1) 0) = _
  rw [c1Rest_length]
  rw [show KEYWORD_WINDOW_TOKENS * CHARS_PER_TOKEN = 1200 from rfl]
  refine flatMap_eq_of_single _ "steel".data _ TRADE_KEYWORDS
    trade_keywords_count_steel ?_ ?_
  · intro kw hkw hne
    exact collect_none_of_safe (pyLower kw) (trade_keywords_safe kw hkw hne) kw.length
  · rw [show pyLower "steel".data = steelBlock from pyLower_steelBlock]
    rw [show ("steel".data).length = 5 from rfl]
    exact collect_steel

/-- Length of the failing input. -/
theorem c1FailText_length : c1FailText.length = 13001 := by
  unfold c1FailText
  rw [List.length_append, List.length_replicate, c1Rest_length]

/-- The failing input splits into intro filler and the remainder. -/
theorem c1FailText_drop : c1FailText.drop (INTRO_TOKENS * CHARS_PER_TOKEN) = c1Rest := by
  unfold c1FailText
  exact List.drop_left' (by rw [List.length_replicate]; decide)

/-- The intro region of the failing input is pure filler. -/
theorem c1FailText_take :
    c1FailText.take (INTRO_TOKENS * CHARS_PER_TOKEN) = List.replicate 6000 'z' := by
  unfold c1FailText
  exact List.take_left' (by rw [List.length_replicate]; decide)

/-- The failing input is over the truncation cap. -/
theorem c1FailText_tokens : token_estimate c1FailText = 3250 := by
  unfold token_estimate
  rw [c1FailText_length]
  decide

/-- The window list of `truncate_text` on the failing input. -/
theorem trunc_windows_c1 :
    trunc_windows c1FailText = [(0, 2405), (2400, 4805), (3390, 5795), (5796, 7001)] := by
  unfold trunc_windows
  rw [c1FailText_drop, windows_c1Rest]

/-- The merged window list of `truncate_text` on the failing input. -/
theorem trunc_merged_c1 : trunc_merged c1FailText = [(0, 5795), (5796, 7001)] := by
  unfold trunc_merged
  rw [trunc_windows_c1]
  decide

/-- The output of `truncate_text` on the failing input has 13120 characters:
the 107-character framing note, the 6000-character intro, the separators and
the 5795-character first chunk — which leaves the budget at -5 — and then,
through the negative Python slice, 1200 of the 1205 characters of the second
chunk. -/
theorem c1_output_length : (truncate_text c1FailText true).length = 13120 := by
  have hne : ¬ c1FailText = [] := by
    intro h
    have hlen := congrArg List.length h
    rw [c1FailText_length] at hlen
    simp at hlen
  unfold truncate_text
  rw [if_neg hne]
  rw [if_neg (show ¬ (true = false) by decide)]
  rw [if_neg (show ¬ token_estimate c1FailText ≤ MAX_TRUNCATED_TOKENS by
    rw [c1FailText_tokens]; decide)]
  simp only [trunc_merged_c1, c1FailText_take, c1FailText_drop]
  rw [show ((MAX_TRUNCATED_TOKENS * CHARS_PER_TOKEN : Int) -
      ((List.replicate 6000 'z' : Str).length : Int) - 200) = (5800 : Int) by
    rw [List.length_replicate]; decide]
  rw [build_parts]
  rw [show (5795 - 0 : Nat) = 5795 from rfl, List.drop_zero]
  rw [show ((c1Rest.take 5795).length : Int) = (5795 : Int) by
    rw [List.length_take, c1Rest_length]; decide]
  rw [if_neg (show ¬ (5800 : Int) < 5795 by decide)]
  rw [show ((5800 : Int) - 5795 - 10) = (-5 : Int) by decide]
  rw [build_parts]
  rw [show (7001 - 5796 : Nat) = 1205 from rfl]
  rw [show (((c1Rest.drop 5796).take 1205).length : Int) = (1205 : Int) by
    rw [List.length_take, List.length_drop, c1Rest_length]; decide]
  rw [if_pos (show (-5 : Int) < 1205 by decide)]
  rw [show pySliceTo ((c1Rest.drop 5796).take 1205) (-5) =
      ((c1Rest.drop 5796).take 1205).take 1200 by
    unfold pySliceTo
    rw [if_neg (show ¬ (0 : Int) ≤ -5 by decide)]
    rw [List.length_take, List.length_drop, c1Rest_length]
    congr 1]
  simp only [List.length_append, List.length_take, List.length_drop,
    List.length_replicate, c1Rest_length]
  rw [show ("[NOTE: This text has been extracted from key sections of a longer document. Some context may be missing.]\n\n".data).length = 107 from by decide]
  rw [show ("\n\n[...]\n\n".data).length = 9 from by decide]
  decide

/-- Unfolding of the token estimate, as a rewrite rule. -/
theorem token_estimate_div (s : Str) :
    token_estimate s = s.length / CHARS_PER_TOKEN := rfl

/-- C1, evaluated at the failing input: the input text is over the token cap,
and the text `truncate_text` returns for it has an estimated token count of
3280 — strictly above `MAX_TRUNCATED_TOKENS` plus the 200-character
(50-token) framing-note reserve.  The claimed output bound (and with it the
claimed idempotence) fails on this input: a merged window that almost
exhausts the budget drives the remaining budget negative, and the negative
Python slice `chunk[:budget]` then keeps most of the next chunk instead of
truncating it. -/
theorem truncate_budget_overflow :
    MAX_TRUNCATED_TOKENS < token_estimate c1FailText ∧
    token_estimate (truncate_text c1FailText true) = 3280 ∧
    MAX_TRUNCATED_TOKENS + 200 / CHARS_PER_TOKEN <
      token_estimate (truncate_text c1FailText true) := by
  have h : token_estimate (truncate_text c1FailText true) = 3280 := by
    rw [token_estimate_div, c1_output_length]
    decide
  refine ⟨?_, h, ?_⟩
  · rw [c1FailText_tokens]
    decide
  · rw [h]
    decide
